import Mathlib

/-!
Shallow embedding of the `nl-tracker` appointment-slot tracker and proofs
about its observable behaviour.  The definitions translate the Python
sources (`main.py`, `utils.py`, `model.py`, `captcha/solver.py`) into
executable Lean functions: Python dicts become association lists over
`String` keys, Python strings become `String` or `List Char`, exceptions
become `Except`/`Option`, and the time spent in `time.sleep` calls is
tracked explicitly as a natural number of seconds.
-/

namespace NLTracker

/-! ## Python dict primitives

Python `dict` lookup (`d[k]` / `d.get(k, default)`), the
`dict(d, key=value, ...)` merge used when saving state, and the
`d.setdefault(k, {})[f] = v` update pattern used by the diff builder. -/

/-- `dictFind d k` models Python dict lookup `d.get(k)`: the value of the
first entry whose key equals `k`, if any. -/
def dictFind {α : Type} : List (String × α) → String → Option α
  | [], _ => none
  | (k, v) :: rest, key => if k = key then some v else dictFind rest key

/-- `dictSet d k v` models `dict(d, k=v)` (also `d[k] = v`): replace the
value of key `k` in place if present, otherwise append the new entry. -/
def dictSet {α : Type} : List (String × α) → String → α → List (String × α)
  | [], key, v => [(key, v)]
  | (k, w) :: rest, key, v =>
      if k = key then (key, v) :: rest
      else (k, w) :: dictSet rest key v

/-- `setdefaultWith upd d key` models `d.setdefault(key, {})` followed by a
field update described by `upd`: `upd (some old)` when the key is present,
`upd none` for the freshly defaulted entry (which keeps insertion order by
being appended at the end). -/
def setdefaultWith {α : Type} (upd : Option α → α) : List (String × α) → String → List (String × α)
  | [], key => [(key, upd none)]
  | (k, v) :: rest, key =>
      if k = key then (k, upd (some v)) :: rest
      else (k, v) :: setdefaultWith upd rest key

theorem dictFind_dictSet_self {α : Type} (d : List (String × α)) (key : String) (v : α) :
    dictFind (dictSet d key v) key = some v := by
  induction d with
  | nil => simp [dictSet, dictFind]
  | cons p rest ih =>
      obtain ⟨k, w⟩ := p
      by_cases h : k = key
      · simp [dictSet, dictFind, h]
      · simp [dictSet, dictFind, h, ih]

theorem dictFind_dictSet_ne {α : Type} (d : List (String × α)) (key key' : String) (v : α)
    (h : key ≠ key') : dictFind (dictSet d key v) key' = dictFind d key' := by
  induction d with
  | nil => simp [dictSet, dictFind, h]
  | cons p rest ih =>
      obtain ⟨k, w⟩ := p
      by_cases hk : k = key
      · subst hk
        simp [dictSet, dictFind, h, Ne.symm h]
      · simp [dictSet, dictFind, hk, ih]

theorem dictFind_setdefaultWith_self {α : Type} (upd : Option α → α)
    (d : List (String × α)) (key : String) :
    dictFind (setdefaultWith upd d key) key = some (upd (dictFind d key)) := by
  induction d with
  | nil => simp [setdefaultWith, dictFind]
  | cons p rest ih =>
      obtain ⟨k, v⟩ := p
      by_cases h : k = key
      · simp [setdefaultWith, dictFind, h]
      · simp [setdefaultWith, dictFind, h, ih]

theorem dictFind_setdefaultWith_ne {α : Type} (upd : Option α → α)
    (d : List (String × α)) (key key' : String) (h : key ≠ key') :
    dictFind (setdefaultWith upd d key) key' = dictFind d key' := by
  induction d with
  | nil => simp [setdefaultWith, dictFind, h]
  | cons p rest ih =>
      obtain ⟨k, v⟩ := p
      by_cases hk : k = key
      · subst hk
        simp [setdefaultWith, dictFind, h, Ne.symm h]
      · simp [setdefaultWith, dictFind, hk, ih]

theorem dictFind_eq_none_of_not_mem_keys {α : Type} (d : List (String × α)) (key : String)
    (h : key ∉ d.map Prod.fst) : dictFind d key = none := by
  induction d with
  | nil => rfl
  | cons p rest ih =>
      obtain ⟨k, v⟩ := p
      simp only [List.map_cons, List.mem_cons, not_or] at h
      have hk : k ≠ key := fun hk => h.1 hk.symm
      simp [dictFind, hk, ih h.2]

/-! ## JSON values

`model.py` serializes slots to plain dicts which are persisted as JSON by
`JsonFileStateProvider`; `JsonValue` is the value universe for those dicts. -/

inductive JsonValue where
  | null
  | bool (b : Bool)
  | num (n : Int)
  | str (s : String)
  | arr (items : List JsonValue)
  | obj (fields : List (String × JsonValue))

/-! ## `model.py`: `AvailableSlot` -/

/-- `AvailableSlot` from `model.py`: month label, day of month, and the
time represented by a 4-character `HHMM` string. -/
structure AvailableSlot where
  month : String
  day : Int
  time : String
deriving DecidableEq, Repr

/-- `AvailableSlot.__eq__`: field-by-field comparison of month, day, time. -/
def AvailableSlot.eq (a b : AvailableSlot) : Bool :=
  a.month == b.month && a.day == b.day && a.time == b.time

/-- `AvailableSlot.to_dict`. -/
def AvailableSlot.to_dict (s : AvailableSlot) : JsonValue :=
  JsonValue.obj
    [("month", JsonValue.str s.month),
     ("day", JsonValue.num s.day),
     ("time", JsonValue.str s.time)]

/-- `AvailableSlot.from_dict`: reads `data['month']`, `data['day']`,
`data['time']`; indexing a non-dict or a dict missing a key (or holding a
value of the wrong shape) fails, which is modelled by `none`. -/
def AvailableSlot.from_dict (data : JsonValue) : Option AvailableSlot :=
  match data with
  | JsonValue.obj fields =>
      match dictFind fields "month", dictFind fields "day", dictFind fields "time" with
      | some (JsonValue.str m), some (JsonValue.num d), some (JsonValue.str t) =>
          some (AvailableSlot.mk m d t)
      | _, _, _ => none
  | _ => none

/-- C9: `AvailableSlot` serialization round-trips: for every valid slot
(month string, integer day, 4-digit time string), `from_dict (to_dict s)`
yields a slot structurally equal to `s` under the three-field equality
`AvailableSlot.eq`. -/
theorem available_slot_roundtrip (s : AvailableSlot) (hvalid : s.time.length = 4) :
    ∃ s2, AvailableSlot.from_dict (AvailableSlot.to_dict s) = some s2 ∧
      AvailableSlot.eq s2 s = true := by
  refine ⟨s, rfl, ?_⟩
  simp [AvailableSlot.eq]

/-- Witness for C9 at the concrete slot `May 1, 09:30`. -/
theorem available_slot_roundtrip_witness :
    (AvailableSlot.mk "May" 1 "0930").time.length = 4 ∧
      ∃ s2, AvailableSlot.from_dict (AvailableSlot.to_dict (AvailableSlot.mk "May" 1 "0930"))
          = some s2 ∧ AvailableSlot.eq s2 (AvailableSlot.mk "May" 1 "0930") = true :=
  ⟨by decide, available_slot_roundtrip (AvailableSlot.mk "May" 1 "0930") (by decide)⟩

/-! ## `check_once` state persistence (`main.py` lines 580-584)

`state_provider.save(dict(state, available_slots=..., timestamp=...))`:
the previously loaded state record is merged with the two refreshed keys,
every other key surviving unchanged. -/

/-- The record written by `check_once` at the end of a successful run:
`dict(state, available_slots=[slot.to_dict() ...], timestamp=time.time())`. -/
def check_once_saved_state (state : List (String × JsonValue))
    (slots : List AvailableSlot) (timestamp : Int) : List (String × JsonValue) :=
  dictSet (dictSet state "available_slots" (JsonValue.arr (slots.map AvailableSlot.to_dict)))
    "timestamp" (JsonValue.num timestamp)

/-- C8: saving the run state replaces exactly `available_slots` and
`timestamp` with the new slot list and current time, while any other key
of the previously loaded record keeps its value in the saved record. -/
theorem check_once_saved_state_merge (state : List (String × JsonValue))
    (slots : List AvailableSlot) (timestamp : Int) (k : String)
    (h1 : k ≠ "available_slots") (h2 : k ≠ "timestamp") :
    dictFind (check_once_saved_state state slots timestamp) k = dictFind state k ∧
    dictFind (check_once_saved_state state slots timestamp) "available_slots"
      = some (JsonValue.arr (slots.map AvailableSlot.to_dict)) ∧
    dictFind (check_once_saved_state state slots timestamp) "timestamp"
      = some (JsonValue.num timestamp) := by
  unfold check_once_saved_state
  refine ⟨?_, ?_, ?_⟩
  · rw [dictFind_dictSet_ne _ _ _ _ (fun h => h2 h.symm),
      dictFind_dictSet_ne _ _ _ _ (fun h => h1 h.symm)]
  · rw [dictFind_dictSet_ne _ _ _ _ (by decide), dictFind_dictSet_self]
  · rw [dictFind_dictSet_self]

/-- Witness for C8: a state record with an unrecognized key `note`
survives the save, and the two owned keys are replaced. -/
theorem check_once_saved_state_merge_witness :
    ("note" ≠ "available_slots") ∧ ("note" ≠ "timestamp") ∧
      dictFind (check_once_saved_state [("note", JsonValue.str "keep")] [] 7) "note"
        = some (JsonValue.str "keep") := by
  refine ⟨by decide, by decide, ?_⟩
  have h := check_once_saved_state_merge [("note", JsonValue.str "keep")] [] 7 "note"
    (by decide) (by decide)
  exact h.1.trans rfl

/-! ## `utils.py`: `retry` and `captcha/solver.py`: site-key extraction

`retry(fn, retry_count, retry_period_sec)` runs `fn`; on an exception it
sleeps and tries again while the number of failures so far is at most
`retry_count`, re-raising the last exception afterwards.  The callable is
modelled as a map from attempt index (0-based) to an `Except` outcome and
the result is paired with the total seconds slept between attempts. -/

/-- Core of `utils.retry`: `retry_num` is the index of the current attempt
and `remaining` the number of further retries still allowed (initially
`retry_count`).  Returns the outcome together with the seconds slept. -/
def retryAux {ε α : Type} (fn : Nat → Except ε α) (retry_period_sec : Nat) :
    Nat → Nat → Except ε α × Nat
  | retry_num, 0 =>
      match fn retry_num with
      | Except.ok a => (Except.ok a, 0)
      | Except.error e => (Except.error e, 0)
  | retry_num, r + 1 =>
      match fn retry_num with
      | Except.ok a => (Except.ok a, 0)
      | Except.error _ =>
          let rest := retryAux fn retry_period_sec (retry_num + 1) r
          (rest.1, retry_period_sec + rest.2)

/-- `utils.retry`: initial attempt plus at most `retry_count` retries,
sleeping `retry_period_sec` before each retry. -/
def retry {ε α : Type} (fn : Nat → Except ε α) (retry_count : Nat)
    (retry_period_sec : Nat) : Except ε α × Nat :=
  retryAux fn retry_period_sec 0 retry_count

/-- The call site in `captcha/solver.py`:
`utils.retry(find_site_key, retry_period_sec=5.0, retry_count=3)`. -/
def find_site_key_with_retry (fn : Nat → Except String String) : Except String String × Nat :=
  retry fn 3 5

theorem retryAux_ok {ε α : Type} (fn : Nat → Except ε α) (p : Nat) :
    ∀ (k s r : Nat), k ≤ r →
      (∀ n, n < k → ∃ e, fn (s + n) = Except.error e) →
      ∀ a, fn (s + k) = Except.ok a →
        retryAux fn p s r = (Except.ok a, p * k) := by
  intro k
  induction k with
  | zero =>
      intro s r _ _ a hok
      rw [Nat.add_zero] at hok
      cases r with
      | zero => simp [retryAux, hok]
      | succ r => simp [retryAux, hok]
  | succ k ih =>
      intro s r hkr hfail a hok
      obtain ⟨e, he⟩ := hfail 0 (Nat.succ_pos k)
      rw [Nat.add_zero] at he
      obtain ⟨r', rfl⟩ : ∃ r', r = r' + 1 := by
        cases r with
        | zero => exact absurd hkr (by omega)
        | succ r' => exact ⟨r', rfl⟩
      have hrec := ih (s + 1) r' (by omega)
        (fun n hn => by
          obtain ⟨e', he'⟩ := hfail (n + 1) (by omega)
          exact ⟨e', by rw [show s + 1 + n = s + (n + 1) by omega]; exact he'⟩)
        a (by rw [show s + 1 + k = s + (k + 1) by omega]; exact hok)
      simp only [retryAux, he, hrec]
      simp [Nat.mul_succ]
      omega

theorem retryAux_err {ε α : Type} (fn : Nat → Except ε α) (p : Nat) :
    ∀ (r s : Nat) (e : ε), fn (s + r) = Except.error e →
      (∀ n, n < r → ∃ e', fn (s + n) = Except.error e') →
      retryAux fn p s r = (Except.error e, p * r) := by
  intro r
  induction r with
  | zero =>
      intro s e he _
      rw [Nat.add_zero] at he
      simp [retryAux, he]
  | succ r ih =>
      intro s e he hfail
      obtain ⟨e0, he0⟩ := hfail 0 (Nat.succ_pos r)
      rw [Nat.add_zero] at he0
      have hrec := ih (s + 1) e
        (by rw [show s + 1 + r = s + (r + 1) by omega]; exact he)
        (fun n hn => by
          obtain ⟨e', he'⟩ := hfail (n + 1) (by omega)
          exact ⟨e', by rw [show s + 1 + n = s + (n + 1) by omega]; exact he'⟩)
      simp only [retryAux, he0, hrec]
      simp [Nat.mul_succ]
      omega

/-- An extraction that fails on its first three attempts (the exception
raised by `find_site_key` when the iframe is not yet attached) and
succeeds on the fourth. -/
def failsThreeTimes : Nat → Except String String :=
  fun n => if n < 3 then Except.error "sitekey not found yet" else Except.ok "site-key"

/-- Counterexample to C4 as stated: the site-key extraction fails 3 times
here, yet the run does not fail with a setup error — the wrapper sleeps a
third time (15 seconds of pauses in total) and the fourth attempt
succeeds, so the retried call returns the key. -/
theorem find_site_key_three_failures_still_succeeds :
    find_site_key_with_retry failsThreeTimes = (Except.ok "site-key", 15) := rfl

/-- C4 (amended): the site-key extraction is attempted and on failure
retried up to 3 times with a fixed 5-second pause before each retry; the
run fails with the setup error only when the initial attempt and all 3
retries fail, i.e. after 4 failures, escalating the final exception; a
first success at attempt `k` (0-based, `k ≤ 3`) returns that attempt's
result after `5 * k` seconds of pauses and raises no error. -/
theorem find_site_key_retry_spec (fn : Nat → Except String String) (k : Nat)
    (hk : k ≤ 3) (hfail : ∀ n, n < k → ∃ e, fn n = Except.error e) :
    (∀ a, fn k = Except.ok a → find_site_key_with_retry fn = (Except.ok a, 5 * k)) ∧
    (∀ e, k = 3 → fn k = Except.error e →
      find_site_key_with_retry fn = (Except.error e, 15)) := by
  constructor
  · intro a hok
    exact retryAux_ok fn 5 k 0 3 hk
      (fun n hn => by simpa using hfail n hn) a (by simpa using hok)
  · intro e hk3 herr
    subst hk3
    have := retryAux_err fn 5 3 0 e (by simpa using herr)
      (fun n hn => by simpa using hfail n hn)
    simpa using this

/-- Witness for C4's amended theorem: an extraction succeeding immediately
returns its key with no pauses. -/
theorem find_site_key_retry_spec_witness :
    (0 ≤ 3) ∧ find_site_key_with_retry (fun _ => Except.ok "sk") = (Except.ok "sk", 0) :=
  ⟨by decide,
    (find_site_key_retry_spec (fun _ => Except.ok "sk") 0 (by decide)
      (fun n hn => absurd hn (Nat.not_lt_zero n))).1 "sk" rfl⟩

/-! ## `__main__` command dispatch (`main.py` lines 705-724)

The argument parser defines subcommands `check`, `monitor`
(with `--period-seconds`, default `15*60`) and `bot-test`; the dispatch
then tests `args.command in ['check', 'monitor']` first, so the
`elif args.command == 'monitor'` arm is unreachable. -/

inductive ProgramAction where
  | runCheckOnce
  | runMonitorLoop (period_seconds : Nat)
  | runBotTest
deriving DecidableEq, Repr

/-- The `if/elif` chain at the bottom of `main.py`: `none` models the
`raise RuntimeError('unknown command: ...')` arm. -/
def dispatchCommand (command : String) (period_seconds : Nat) : Option ProgramAction :=
  if command = "check" ∨ command = "monitor" then some ProgramAction.runCheckOnce
  else if command = "monitor" then some (ProgramAction.runMonitorLoop period_seconds)
  else if command = "bot-test" then some ProgramAction.runBotTest
  else none

/-- C1: the `monitor` command (with the default `--period-seconds` of
`15*60 = 900`) is captured by the first dispatch branch and performs a
single `check_once` run; it never reaches the looping `monitor`
function. -/
theorem monitor_command_dispatch_runs_single_check :
    dispatchCommand "monitor" 900 = some ProgramAction.runCheckOnce ∧
    ∀ p : Nat, dispatchCommand "monitor" p ≠ some (ProgramAction.runMonitorLoop p) := by
  refine ⟨by decide, fun p => ?_⟩
  simp [dispatchCommand]

/-! ## Captcha handling branch of `check_available_slots`
(`main.py` lines 304-319)

With a captcha screen detected and no (truthy) `anticaptcha_api_key`, the
code logs a warning and then loops
`for captcha_report_round in range(captcha_time // captcha_report_period - 1)`
with `captcha_time = 60`, `captcha_report_period = 10`, logging the
leftover seconds and sleeping 10 seconds each round, and afterwards falls
through to clicking the `Schedule Appointment` link with no check of
whether the challenge was cleared. -/

def captcha_time : Nat := 60

def captcha_report_period : Nat := 10

/-- The leftover values logged each round:
`captcha_time - captcha_report_round * captcha_report_period`. -/
def captcha_wait_leftovers : List Nat :=
  (List.range (captcha_time / captcha_report_period - 1)).map
    (fun captcha_report_round => captcha_time - captcha_report_round * captcha_report_period)

/-- The `time.sleep(10)` durations executed by the wait loop. -/
def captcha_wait_sleep_seconds : List Nat :=
  (List.range (captcha_time / captcha_report_period - 1)).map (fun _ => 10)

def captcha_total_wait_seconds : Nat := captcha_wait_sleep_seconds.sum

/-- Python truthiness of `config.get('anticaptcha_api_key')`: a missing
key or an empty string is falsy. -/
def isTruthyKey : Option String → Bool
  | none => false
  | some s => !(s == "")

inductive CaptchaHandling where
  | solveAutomatically
  | waitThenProceed (total_wait_seconds : Nat)
  | proceedNoCaptcha
deriving DecidableEq, Repr

/-- The captcha branch of `check_available_slots`: with no captcha screen
the code just proceeds; with a captcha screen and a truthy API key it
calls `captcha.solver.solve_captcha`; otherwise it runs the blocking wait
loop and then proceeds unconditionally. -/
def handleCaptchaScreen (captcha_screen_present : Bool) (anticaptcha_api_key : Option String) :
    CaptchaHandling :=
  if captcha_screen_present then
    if isTruthyKey anticaptcha_api_key then CaptchaHandling.solveAutomatically
    else CaptchaHandling.waitThenProceed captcha_total_wait_seconds
  else CaptchaHandling.proceedNoCaptcha

/-- C5: when the captcha screen is detected and no anticaptcha API key is
configured, no automated solving happens; the branch performs five
10-second sleeps — 50 seconds in total, within the 60-second budget —
logging the remaining time (60, 50, 40, 30, 20) before each sleep, and
then proceeds to the next navigation step unconditionally (the result of
the branch is `waitThenProceed`, independent of any challenge state). -/
theorem captcha_no_api_key_wait_behaviour (anticaptcha_api_key : Option String)
    (hkey : isTruthyKey anticaptcha_api_key = false) :
    handleCaptchaScreen true anticaptcha_api_key
        = CaptchaHandling.waitThenProceed captcha_total_wait_seconds ∧
    captcha_wait_sleep_seconds = [10, 10, 10, 10, 10] ∧
    captcha_total_wait_seconds = 50 ∧
    captcha_total_wait_seconds ≤ captcha_time ∧
    captcha_wait_leftovers = [60, 50, 40, 30, 20] := by
  refine ⟨?_, by decide, by decide, by decide, by decide⟩
  simp [handleCaptchaScreen, hkey]

/-- Witness for C5 with no API key configured at all. -/
theorem captcha_no_api_key_wait_behaviour_witness :
    isTruthyKey none = false ∧
      handleCaptchaScreen true none
        = CaptchaHandling.waitThenProceed captcha_total_wait_seconds :=
  ⟨rfl, (captcha_no_api_key_wait_behaviour none rfl).1⟩

/-! ## Notification text truncation (`check_once`, `main.py` lines 551-553)

`if len(notification_text) > 1000: notification_text =
notification_text[:1000] + ' (cut)'` — the text is modelled as its list
of characters. -/

/-- The truncation applied to the composed notification body before it is
attached as the caption of the first screenshot. -/
def truncate_notification (text : List Char) : List Char :=
  if 1000 < text.length then text.take 1000 ++ (" (cut)".data) else text

theorem truncate_notification_length_of_long (text : List Char)
    (h : 1000 < text.length) : (truncate_notification text).length = 1006 := by
  have h6 : (" (cut)".data).length = 6 := rfl
  simp [truncate_notification, h, h6]
  omega

/-- Counterexample to C6 as stated: a 1001-character body is truncated to
its first 1000 characters and then the marker `' (cut)'` is appended, so
the sent text has 1006 characters — it exceeds the fixed maximum length
of 1000 instead of never exceeding it. -/
theorem truncate_notification_exceeds_limit :
    1000 < (truncate_notification (List.replicate 1001 'a')).length := by
  have h := truncate_notification_length_of_long (List.replicate 1001 'a')
    (by rw [List.length_replicate]; omega)
  omega

/-- C6 (amended): a composed body longer than 1000 characters is cut to
its first 1000 characters with the marker `' (cut)'` appended, so the
sent text has exactly 1006 characters (1000 + the 6-character marker) —
bounded, but 6 over the stated limit; a body of at most 1000 characters
is sent unchanged. -/
theorem truncate_notification_spec (text : List Char) :
    (1000 < text.length →
      truncate_notification text = text.take 1000 ++ (" (cut)".data) ∧
      (truncate_notification text).length = 1006) ∧
    (text.length ≤ 1000 → truncate_notification text = text) := by
  constructor
  · intro h
    exact ⟨by simp [truncate_notification, h], truncate_notification_length_of_long text h⟩
  · intro h
    simp [truncate_notification]
    omega

/-- Witness for C6's amended theorem at a 1001-character body. -/
theorem truncate_notification_spec_witness :
    1000 < (List.replicate 1001 'a').length ∧
      truncate_notification (List.replicate 1001 'a')
        = (List.replicate 1001 'a').take 1000 ++ (" (cut)".data) :=
  ⟨by rw [List.length_replicate]; omega,
    ((truncate_notification_spec (List.replicate 1001 'a')).1
      (by rw [List.length_replicate]; omega)).1⟩

/-! ## `utils.find_element_safe` and the "no dates" marker check

`find_element_safe` wraps `driver.find_element` in a
`try/except NoSuchElementException: return None`.  A page is modelled as
an association of locators to element texts, and `find_element` as the
lookup that raises `noSuchElement` when nothing matches. -/

structure Locator where
  by_kind : String
  value : String
deriving DecidableEq, Repr

abbrev PageElements := List (Locator × String)

inductive SeleniumError where
  | noSuchElement
deriving DecidableEq, Repr

/-- `driver.find_element`: the first matching element's text, or the
`NoSuchElementException` error when the element is absent. -/
def find_element (page : PageElements) (loc : Locator) : Except SeleniumError String :=
  match page.find? (fun p => p.1 == loc) with
  | some p => Except.ok p.2
  | none => Except.error SeleniumError.noSuchElement

/-- `utils.find_element_safe`: catches `NoSuchElementException` and turns
it into `None`; its total `Option` type is the no-throw contract. -/
def find_element_safe (page : PageElements) (loc : Locator) : Option String :=
  match find_element page loc with
  | Except.ok el => some el
  | Except.error SeleniumError.noSuchElement => none

/-- The locator of the status message span checked for the "no dates"
markers. -/
def msg_span_locator : Locator := Locator.mk "id" "plhMain_lblMsg"

/-- The four alternatives of `NO_DATES_MARKER_RE` (each a literal string
in the pattern). -/
def no_dates_marker_variants : List String :=
  ["No date(s) available for appointment",
   "No Appointment slots available",
   "No date(s) available for current month",
   "Error in the application, please contact admin"]

/-- `re.search` of `NO_DATES_MARKER_RE` over the span text: true when one
of the literal alternatives occurs as a substring. -/
def no_dates_marker_matches (text : String) : Bool :=
  no_dates_marker_variants.any
    (fun pat => text.data.tails.any (fun t => pat.data.isPrefixOf t))

/-- `is_no_dates_available_marker_present`: the safe lookup of the
message span followed by the regex search; an absent span yields a falsy
result rather than an error. -/
def is_no_dates_available_marker_present (page : PageElements) : Bool :=
  match find_element_safe page msg_span_locator with
  | some text => no_dates_marker_matches text
  | none => false

/-- C7: the safe element lookup never throws on an absent element: for
every page and locator with no matching element, `find_element` yields
the not-found error and `find_element_safe` converts it to the
first-class absence value `none`; consequently the "no dates" marker
check treats the absent message span as a legitimate (false) result. -/
theorem find_element_safe_absent (page : PageElements) (loc : Locator)
    (habsent : ∀ p, p ∈ page → p.1 ≠ loc) :
    find_element page loc = Except.error SeleniumError.noSuchElement ∧
    find_element_safe page loc = none ∧
    (loc = msg_span_locator → is_no_dates_available_marker_present page = false) := by
  have hfind : page.find? (fun p => p.1 == loc) = none := by
    rw [List.find?_eq_none]
    intro p hp
    simpa using habsent p hp
  have h1 : find_element page loc = Except.error SeleniumError.noSuchElement := by
    simp [find_element, hfind]
  have h2 : find_element_safe page loc = none := by
    simp [find_element_safe, h1]
  refine ⟨h1, h2, fun hloc => ?_⟩
  subst hloc
  simp [is_no_dates_available_marker_present, h2]

/-- Witness for C7 on the empty page at the message-span locator. -/
theorem find_element_safe_absent_witness :
    (∀ p, p ∈ ([] : PageElements) → p.1 ≠ msg_span_locator) ∧
      find_element_safe [] msg_span_locator = none ∧
      is_no_dates_available_marker_present [] = false :=
  ⟨fun p hp => absurd hp (List.not_mem_nil p),
    (find_element_safe_absent [] msg_span_locator
      (fun p hp => absurd hp (List.not_mem_nil p))).2.1,
    (find_element_safe_absent [] msg_span_locator
      (fun p hp => absurd hp (List.not_mem_nil p))).2.2 rfl⟩

/-! ## `get_available_slots_diff` (`main.py` lines 223-236)

Snapshots are ordered dicts mapping month labels to day lists.  The diff
iterates the baseline months recording the non-empty sorted set
differences under `removed`, then the current months recording them under
`added`, using `diff.setdefault(month, {})`. -/

abbrev Snapshot := List (String × List Int)

/-- `d.get(month, [])`: dict lookup with an empty-list default. -/
def dictGet (d : Snapshot) (month : String) : List Int :=
  (dictFind d month).getD []

/-- `sorted(set(a) - set(b))`: the distinct elements of `a` not in `b`,
sorted ascending. -/
def sortedSetMinus (a b : List Int) : List Int :=
  List.insertionSort (fun x y => x ≤ y) ((a.filter (fun x => decide (x ∉ b))).dedup)

/-- One month's entry in the diff dict: each of the `removed` / `added`
keys may be absent. -/
structure MonthDiff where
  removed : Option (List Int)
  added : Option (List Int)
deriving DecidableEq, Repr

/-- `diff.setdefault(month, {})['removed'] = v`. -/
def updRemoved (v : List Int) : Option MonthDiff → MonthDiff
  | some e => { e with removed := some v }
  | none => { removed := some v, added := none }

/-- `diff.setdefault(month, {})['added'] = v`. -/
def updAdded (v : List Int) : Option MonthDiff → MonthDiff
  | some e => { e with added := some v }
  | none => { removed := none, added := some v }

/-- `removed_dates` computed for a month in the first loop:
`set(baseline[month]) - set(current.get(month, []))`, sorted. -/
def removedOf (baseline current : Snapshot) (month : String) : List Int :=
  sortedSetMinus (dictGet baseline month) (dictGet current month)

/-- `added_dates` computed for a month in the second loop:
`set(current[month]) - set(baseline.get(month, []))`, sorted. -/
def addedOf (baseline current : Snapshot) (month : String) : List Int :=
  sortedSetMinus (dictGet current month) (dictGet baseline month)

/-- The first loop of `get_available_slots_diff`: for every baseline
month, record the non-empty `removed` set difference. -/
def removedPass (baseline current : Snapshot) :
    List String → List (String × MonthDiff) → List (String × MonthDiff)
  | [], acc => acc
  | month :: rest, acc =>
      let removed_dates := removedOf baseline current month
      removedPass baseline current rest
        (if removed_dates = [] then acc
         else setdefaultWith (updRemoved removed_dates) acc month)

/-- The second loop of `get_available_slots_diff`: for every current
month, record the non-empty `added` set difference. -/
def addedPass (baseline current : Snapshot) :
    List String → List (String × MonthDiff) → List (String × MonthDiff)
  | [], acc => acc
  | month :: rest, acc =>
      let added_dates := addedOf baseline current month
      addedPass baseline current rest
        (if added_dates = [] then acc
         else setdefaultWith (updAdded added_dates) acc month)

/-- `get_available_slots_diff(baseline, current)`. -/
def get_available_slots_diff (baseline current : Snapshot) : List (String × MonthDiff) :=
  addedPass baseline current (current.map Prod.fst)
    (removedPass baseline current (baseline.map Prod.fst) [])

/-! ### Properties of `sortedSetMinus` -/

theorem mem_sortedSetMinus (a b : List Int) (x : Int) :
    x ∈ sortedSetMinus a b ↔ x ∈ a ∧ x ∉ b := by
  unfold sortedSetMinus
  rw [List.mem_insertionSort, List.mem_dedup, List.mem_filter]
  simp

theorem sortedSetMinus_sorted (a b : List Int) :
    List.Sorted (fun x y : Int => x < y) (sortedSetMinus a b) := by
  have hsorted : List.Sorted (fun x y : Int => x ≤ y) (sortedSetMinus a b) :=
    List.sorted_insertionSort _ _
  have hnodup : (sortedSetMinus a b).Nodup :=
    ((List.perm_insertionSort _ _).nodup_iff).mpr (List.nodup_dedup _)
  exact hsorted.lt_of_le hnodup

theorem sortedSetMinus_self (a : List Int) : sortedSetMinus a a = [] := by
  unfold sortedSetMinus
  have hfil : a.filter (fun x => decide (x ∉ a)) = [] := by
    rw [List.filter_eq_nil_iff]
    intro x hx
    simp [hx]
  rw [hfil]
  rfl

theorem removedOf_self (S : Snapshot) (month : String) : removedOf S S month = [] :=
  sortedSetMinus_self _

theorem addedOf_self (S : Snapshot) (month : String) : addedOf S S month = [] :=
  sortedSetMinus_self _

theorem mem_keys_of_removedOf_ne_nil (baseline current : Snapshot) (month : String)
    (h : removedOf baseline current month ≠ []) : month ∈ baseline.map Prod.fst := by
  by_contra hmem
  apply h
  have hz : dictGet baseline month = [] := by
    rw [dictGet, dictFind_eq_none_of_not_mem_keys baseline month hmem]
    rfl
  rw [removedOf, hz]
  rfl

theorem mem_keys_of_addedOf_ne_nil (baseline current : Snapshot) (month : String)
    (h : addedOf baseline current month ≠ []) : month ∈ current.map Prod.fst := by
  by_contra hmem
  apply h
  have hz : dictGet current month = [] := by
    rw [dictGet, dictFind_eq_none_of_not_mem_keys current month hmem]
    rfl
  rw [addedOf, hz]
  rfl

/-! ### Lookup characterization of the two passes -/

theorem updRemoved_idem (v : List Int) (o : Option MonthDiff) :
    updRemoved v (some (updRemoved v o)) = updRemoved v o := by
  cases o <;> rfl

theorem updAdded_idem (v : List Int) (o : Option MonthDiff) :
    updAdded v (some (updAdded v o)) = updAdded v o := by
  cases o <;> rfl

theorem removedPass_find (baseline current : Snapshot) (L : List String)
    (acc : List (String × MonthDiff)) (m : String) :
    dictFind (removedPass baseline current L acc) m =
      if m ∈ L ∧ removedOf baseline current m ≠ [] then
        some (updRemoved (removedOf baseline current m) (dictFind acc m))
      else dictFind acc m := by
  induction L generalizing acc with
  | nil => simp [removedPass]
  | cons month rest ih =>
      simp only [removedPass]
      rw [ih]
      by_cases hm : m = month
      · subst hm
        by_cases hR : removedOf baseline current m = []
        · simp [hR]
        · by_cases hmem : m ∈ rest
          · simp [hR, hmem, dictFind_setdefaultWith_self, updRemoved_idem]
          · simp [hR, hmem, dictFind_setdefaultWith_self]
      · have hacc : dictFind (if removedOf baseline current month = [] then acc
            else setdefaultWith (updRemoved (removedOf baseline current month)) acc month) m
              = dictFind acc m := by
          split
          · rfl
          · exact dictFind_setdefaultWith_ne _ acc month m (fun h => hm h.symm)
        rw [hacc]
        simp [hm]

theorem addedPass_find (baseline current : Snapshot) (L : List String)
    (acc : List (String × MonthDiff)) (m : String) :
    dictFind (addedPass baseline current L acc) m =
      if m ∈ L ∧ addedOf baseline current m ≠ [] then
        some (updAdded (addedOf baseline current m) (dictFind acc m))
      else dictFind acc m := by
  induction L generalizing acc with
  | nil => simp [addedPass]
  | cons month rest ih =>
      simp only [addedPass]
      rw [ih]
      by_cases hm : m = month
      · subst hm
        by_cases hA : addedOf baseline current m = []
        · simp [hA]
        · by_cases hmem : m ∈ rest
          · simp [hA, hmem, dictFind_setdefaultWith_self, updAdded_idem]
          · simp [hA, hmem, dictFind_setdefaultWith_self]
      · have hacc : dictFind (if addedOf baseline current month = [] then acc
            else setdefaultWith (updAdded (addedOf baseline current month)) acc month) m
              = dictFind acc m := by
          split
          · rfl
          · exact dictFind_setdefaultWith_ne _ acc month m (fun h => hm h.symm)
        rw [hacc]
        simp [hm]

/-- Lookup view of the whole diff: month by month, the entry is the
non-empty `removed` and/or `added` difference, and no entry otherwise. -/
theorem diff_find (baseline current : Snapshot) (m : String) :
    dictFind (get_available_slots_diff baseline current) m =
      if removedOf baseline current m = [] then
        (if addedOf baseline current m = [] then none
         else some { removed := none, added := some (addedOf baseline current m) })
      else
        (if addedOf baseline current m = [] then
           some { removed := some (removedOf baseline current m), added := none }
         else some { removed := some (removedOf baseline current m),
                     added := some (addedOf baseline current m) }) := by
  unfold get_available_slots_diff
  rw [addedPass_find, removedPass_find]
  have hnil : dictFind ([] : List (String × MonthDiff)) m = none := rfl
  rw [hnil]
  by_cases hR : removedOf baseline current m = []
  · by_cases hA : addedOf baseline current m = []
    · simp [hR, hA]
    · have hmem : m ∈ current.map Prod.fst := mem_keys_of_addedOf_ne_nil _ _ _ hA
      simp [hR, hA, hmem, updAdded]
  · have hmemB : m ∈ baseline.map Prod.fst := mem_keys_of_removedOf_ne_nil _ _ _ hR
    by_cases hA : addedOf baseline current m = []
    · simp [hR, hA, hmemB, updRemoved]
    · have hmem : m ∈ current.map Prod.fst := mem_keys_of_addedOf_ne_nil _ _ _ hA
      simp [hR, hA, hmem, hmemB, updRemoved, updAdded]

/-! ### The diff of a snapshot with itself is empty -/

theorem removedPass_of_empty (baseline current : Snapshot) (L : List String)
    (acc : List (String × MonthDiff))
    (h : ∀ month, month ∈ L → removedOf baseline current month = []) :
    removedPass baseline current L acc = acc := by
  induction L generalizing acc with
  | nil => rfl
  | cons month rest ih =>
      have h0 : removedOf baseline current month = [] :=
        h month (List.mem_cons_self month rest)
      simp only [removedPass, h0, if_pos]
      exact ih acc (fun mo hmo => h mo (List.mem_cons_of_mem _ hmo))

theorem addedPass_of_empty (baseline current : Snapshot) (L : List String)
    (acc : List (String × MonthDiff))
    (h : ∀ month, month ∈ L → addedOf baseline current month = []) :
    addedPass baseline current L acc = acc := by
  induction L generalizing acc with
  | nil => rfl
  | cons month rest ih =>
      have h0 : addedOf baseline current month = [] :=
        h month (List.mem_cons_self month rest)
      simp only [addedPass, h0, if_pos]
      exact ih acc (fun mo hmo => h mo (List.mem_cons_of_mem _ hmo))

theorem get_available_slots_diff_self (S : Snapshot) :
    get_available_slots_diff S S = [] := by
  unfold get_available_slots_diff
  rw [removedPass_of_empty S S _ [] (fun month _ => removedOf_self S month)]
  exact addedPass_of_empty S S _ [] (fun month _ => addedOf_self S month)

/-- C2: for every pair of snapshots, the diff's `removed` entry for a
month is the non-empty `baseline[month] - current[month]` sorted set
difference (with empty-set default for a missing month) and absent
otherwise; symmetrically for `added`; a month has no entry exactly when
neither difference is non-empty; `diff(S, S)` is empty for every
snapshot; the spec's May/June example evaluates exactly as stated. -/
theorem get_available_slots_diff_spec (baseline current : Snapshot) (month : String) :
    ((dictFind (get_available_slots_diff baseline current) month).bind MonthDiff.removed
        = if removedOf baseline current month = [] then none
          else some (removedOf baseline current month)) ∧
    ((dictFind (get_available_slots_diff baseline current) month).bind MonthDiff.added
        = if addedOf baseline current month = [] then none
          else some (addedOf baseline current month)) ∧
    (dictFind (get_available_slots_diff baseline current) month = none
        ↔ removedOf baseline current month = [] ∧ addedOf baseline current month = []) ∧
    get_available_slots_diff baseline baseline = [] ∧
    get_available_slots_diff [("May", [1, 2])] [("May", [2, 3]), ("June", [5])]
      = [("May", { removed := some [1], added := some [3] }),
         ("June", { removed := none, added := some [5] })] := by
  refine ⟨?_, ?_, ?_, get_available_slots_diff_self baseline, by decide⟩
  · rw [diff_find]
    by_cases hR : removedOf baseline current month = [] <;>
      by_cases hA : addedOf baseline current month = [] <;>
      simp [hR, hA]
  · rw [diff_find]
    by_cases hR : removedOf baseline current month = [] <;>
      by_cases hA : addedOf baseline current month = [] <;>
      simp [hR, hA]
  · rw [diff_find]
    by_cases hR : removedOf baseline current month = [] <;>
      by_cases hA : addedOf baseline current month = [] <;>
      simp [hR, hA]

/-! ### Key uniqueness of the diff and the month-entry invariants -/

theorem keys_setdefaultWith {α : Type} (upd : Option α → α)
    (d : List (String × α)) (key : String) :
    (setdefaultWith upd d key).map Prod.fst
      = if key ∈ d.map Prod.fst then d.map Prod.fst else d.map Prod.fst ++ [key] := by
  induction d with
  | nil => simp [setdefaultWith]
  | cons p rest ih =>
      obtain ⟨k, v⟩ := p
      by_cases hk : k = key
      · subst hk
        simp [setdefaultWith]
      · by_cases hmem : key ∈ rest.map Prod.fst
        · simp [setdefaultWith, hk, ih, hmem, Ne.symm hk]
        · simp [setdefaultWith, hk, ih, hmem, Ne.symm hk]

theorem nodupKeys_setdefaultWith {α : Type} (upd : Option α → α)
    (d : List (String × α)) (key : String) (h : (d.map Prod.fst).Nodup) :
    ((setdefaultWith upd d key).map Prod.fst).Nodup := by
  rw [keys_setdefaultWith]
  split
  · exact h
  · next hmem =>
      refine List.Nodup.append h (List.nodup_singleton key) ?_
      intro a ha ha'
      rw [List.mem_singleton] at ha'
      subst ha'
      exact hmem ha

theorem nodupKeys_removedPass (baseline current : Snapshot) (L : List String)
    (acc : List (String × MonthDiff)) (h : (acc.map Prod.fst).Nodup) :
    ((removedPass baseline current L acc).map Prod.fst).Nodup := by
  induction L generalizing acc with
  | nil => exact h
  | cons month rest ih =>
      simp only [removedPass]
      apply ih
      split
      · exact h
      · exact nodupKeys_setdefaultWith _ acc month h

theorem nodupKeys_addedPass (baseline current : Snapshot) (L : List String)
    (acc : List (String × MonthDiff)) (h : (acc.map Prod.fst).Nodup) :
    ((addedPass baseline current L acc).map Prod.fst).Nodup := by
  induction L generalizing acc with
  | nil => exact h
  | cons month rest ih =>
      simp only [addedPass]
      apply ih
      split
      · exact h
      · exact nodupKeys_setdefaultWith _ acc month h

theorem nodupKeys_diff (baseline current : Snapshot) :
    ((get_available_slots_diff baseline current).map Prod.fst).Nodup :=
  nodupKeys_addedPass baseline current _ _
    (nodupKeys_removedPass baseline current _ _ List.nodup_nil)

theorem dictFind_eq_some_of_mem {α : Type} (d : List (String × α)) (key : String) (v : α)
    (hnd : (d.map Prod.fst).Nodup) (hmem : (key, v) ∈ d) : dictFind d key = some v := by
  induction d with
  | nil => cases hmem
  | cons p rest ih =>
      obtain ⟨k, w⟩ := p
      rw [List.map_cons, List.nodup_cons] at hnd
      rcases List.mem_cons.mp hmem with heq | hmem'
      · cases heq
        simp [dictFind]
      · have hk : k ≠ key := by
          intro hk
          subst hk
          exact hnd.1 (List.mem_map.mpr ⟨(k, v), hmem', rfl⟩)
        simp only [dictFind, if_neg hk]
        exact ih hnd.2 hmem'

/-- Shape of any entry reachable in the diff: at least one key is
present, and each present list is the corresponding non-empty set
difference of its month. -/
theorem diff_entry_shape (baseline current : Snapshot)
    (month : String) (e : MonthDiff)
    (hmem : (month, e) ∈ get_available_slots_diff baseline current) :
    (e.removed ≠ none ∨ e.added ≠ none) ∧
    (∀ l, e.removed = some l → l = removedOf baseline current month ∧ l ≠ []) ∧
    (∀ l, e.added = some l → l = addedOf baseline current month ∧ l ≠ []) := by
  have hfind := dictFind_eq_some_of_mem _ _ _ (nodupKeys_diff baseline current) hmem
  rw [diff_find] at hfind
  by_cases hR : removedOf baseline current month = []
  · by_cases hA : addedOf baseline current month = []
    · simp [hR, hA] at hfind
    · rw [if_pos hR, if_neg hA] at hfind
      cases hfind
      refine ⟨Or.inr (by simp), ?_, ?_⟩
      · intro l hl
        cases hl
      · intro l hl
        cases hl
        exact ⟨rfl, hA⟩
  · by_cases hA : addedOf baseline current month = []
    · rw [if_neg hR, if_pos hA] at hfind
      cases hfind
      refine ⟨Or.inl (by simp), ?_, ?_⟩
      · intro l hl
        cases hl
        exact ⟨rfl, hR⟩
      · intro l hl
        cases hl
    · rw [if_neg hR, if_neg hA] at hfind
      cases hfind
      refine ⟨Or.inl (by simp), ?_, ?_⟩
      · intro l hl
        cases hl
        exact ⟨rfl, hR⟩
      · intro l hl
        cases hl
        exact ⟨rfl, hA⟩

/-- C10: every month entry of the diff carries at least one of the
`removed` / `added` keys; every list that is present is non-empty and
sorted strictly ascending (hence has no duplicate days); and when a month
carries both lists they are disjoint. -/
theorem get_available_slots_diff_invariants (baseline current : Snapshot)
    (month : String) (e : MonthDiff)
    (hmem : (month, e) ∈ get_available_slots_diff baseline current) :
    (e.removed ≠ none ∨ e.added ≠ none) ∧
    (∀ l, e.removed = some l → l ≠ [] ∧ List.Sorted (fun x y : Int => x < y) l) ∧
    (∀ l, e.added = some l → l ≠ [] ∧ List.Sorted (fun x y : Int => x < y) l) ∧
    (∀ lr la, e.removed = some lr → e.added = some la →
      ∀ x, x ∈ lr → x ∉ la) := by
  obtain ⟨hkeys, hrem, hadd⟩ := diff_entry_shape baseline current month e hmem
  refine ⟨hkeys, ?_, ?_, ?_⟩
  · intro l hl
    obtain ⟨rfl, hne⟩ := hrem l hl
    exact ⟨hne, sortedSetMinus_sorted _ _⟩
  · intro l hl
    obtain ⟨rfl, hne⟩ := hadd l hl
    exact ⟨hne, sortedSetMinus_sorted _ _⟩
  · intro lr la hlr hla x hx
    obtain ⟨rfl, hlrne⟩ := hrem lr hlr
    obtain ⟨rfl, hlane⟩ := hadd la hla
    intro hxa
    rw [removedOf, mem_sortedSetMinus] at hx
    rw [addedOf, mem_sortedSetMinus] at hxa
    exact hx.2 hxa.1

/-! ## Notification branch of `check_once` (`main.py` lines 515-563)

When the canonical month-to-days snapshots differ and slots currently
exist, `check_once` builds the diff, walks it to compose the text, sets
`added_something` when some month contributes an `added` day, and sends
the media group with `disable_notification=not added_something`.  With no
current slots it sends the "no more slots" message; with no change it
does not notify. -/

inductive NotifyAction where
  | noNotification
  | mediaGroup (disable_notification : Bool)
  | noMoreSlotsMessage
deriving DecidableEq, Repr

/-- `added_something`: set while walking the diff exactly when some month
has a non-empty `diff[month].get('added', [])` list. -/
def addedSomething (diff : List (String × MonthDiff)) : Bool :=
  diff.any (fun p => !(((p.2.added).getD []).isEmpty))

/-- The notification decision of `check_once` as a function of the
previous and current `available_dates` snapshots. -/
def notifyAction (prev_available_dates available_dates : Snapshot) : NotifyAction :=
  if prev_available_dates ≠ available_dates then
    if available_dates ≠ [] then
      NotifyAction.mediaGroup
        (!(addedSomething (get_available_slots_diff prev_available_dates available_dates)))
    else NotifyAction.noMoreSlotsMessage
  else NotifyAction.noNotification

/-- C3: whenever the diff between the previous and current snapshots is
non-empty and slots currently exist, the media group is sent with
`disable_notification = not added_something`, and the sound-on flag
(`added_something`) is true exactly when the diff contains at least one
`added` entry — a diff with only `removed` lists is sent silently. -/
theorem check_once_notification_sound_flag (prev current : Snapshot)
    (hdiff : get_available_slots_diff prev current ≠ []) (hcur : current ≠ []) :
    notifyAction prev current
      = NotifyAction.mediaGroup
          (!(addedSomething (get_available_slots_diff prev current))) ∧
    (addedSomething (get_available_slots_diff prev current) = true
      ↔ ∃ p, p ∈ get_available_slots_diff prev current ∧ p.2.added ≠ none) := by
  have hne : prev ≠ current := by
    intro h
    subst h
    exact hdiff (get_available_slots_diff_self prev)
  constructor
  · simp [notifyAction, hne, hcur]
  · unfold addedSomething
    rw [List.any_eq_true]
    constructor
    · rintro ⟨p, hp, hval⟩
      refine ⟨p, hp, ?_⟩
      intro hnone
      rw [hnone] at hval
      simp at hval
    · rintro ⟨p, hp, hsome⟩
      obtain ⟨l, hl⟩ : ∃ l, p.2.added = some l := by
        cases hadd : p.2.added with
        | none => exact absurd hadd hsome
        | some l => exact ⟨l, rfl⟩
      have hinv := diff_entry_shape prev current p.1 p.2 hp
      have hlne := (hinv.2.2 l hl).2
      refine ⟨p, hp, ?_⟩
      simp [hl, hlne]

/-- Witness for C3: a first-ever slot discovery yields a one-added-entry
diff and a media group with the notification sound on. -/
theorem check_once_notification_sound_flag_witness :
    get_available_slots_diff [] [("May", [1])] ≠ [] ∧
      notifyAction [] [("May", [1])]
        = NotifyAction.mediaGroup
            (!(addedSomething (get_available_slots_diff [] [("May", [1])]))) :=
  ⟨by decide,
    (check_once_notification_sound_flag [] [("May", [1])] (by decide) (by decide)).1⟩

/-- Witness for C10 on a one-month removal-only diff. -/
theorem get_available_slots_diff_invariants_witness :
    ((("May", MonthDiff.mk (some [1]) none)
        ∈ get_available_slots_diff [("May", [1])] []) ∧
      ((MonthDiff.mk (some [1]) none).removed ≠ none ∨
        (MonthDiff.mk (some [1]) none).added ≠ none)) :=
  ⟨by decide,
    (get_available_slots_diff_invariants [("May", [1])] [] "May"
      (MonthDiff.mk (some [1]) none) (by decide)).1⟩

end NLTracker
